import Mathlib

/-!
Shallow embedding of the filter rule compiler and matcher of
`conditional-paths-action` (src/lib/filter.ts, src/file.ts) together with the
CSV escaping helper (src/lib/list-format/csv-escape.ts), and proofs of the
behavioural properties stated about them.

Conventions of the embedding:
* JavaScript strings are Lean `String`s.  The string primitives the source
  uses (`split`, `trim`, `toLowerCase`) are given structurally recursive
  char-list implementations (`jsSplit`, `jsTrim`, `jsToLower`) so that every
  definition evaluates inside the kernel; `jsToLower` lowercases ASCII,
  which is all the status grammar uses.
* The decoded YAML document returned by `js-yaml` is the inductive `Yaml`;
  textual decoding itself is an external collaborator and is not modelled.
* The compiled picomatch matcher is kept opaque: a compiled predicate stores
  the pattern argument (`PatSpec`) it was built from, and every theorem is
  parametrised by an arbitrary matcher function `pm : PatSpec → String → Bool`
  standing for `picomatch(pattern, MatchOptions)` applied to a path.
  picomatch's own input validation (it throws on a pattern that is not a
  non-empty string) is modelled in `compileOne` / `compileList`.
* Thrown JavaScript exceptions are `Except String` / `Option String` error
  components; the mutable `Filter.rules` object is explicit state of type
  `Rules` threaded through `load`, with JS object-property assignment
  modelled by `setKey` (update in place if the key exists, append otherwise).
-/

namespace CondPaths

/-- The `ChangeStatus` enum from src/file.ts: the six git change statuses. -/
inductive ChangeStatus where
  | added
  | copied
  | deleted
  | modified
  | renamed
  | unmerged
deriving DecidableEq, Repr

/-- The string value each `ChangeStatus` enum member carries in the source. -/
def ChangeStatus.toStr : ChangeStatus → String
  | .added => "added"
  | .copied => "copied"
  | .deleted => "deleted"
  | .modified => "modified"
  | .renamed => "renamed"
  | .unmerged => "unmerged"

/-- The six status strings of the closed `ChangeStatus` enum. -/
def statusNames : List String :=
  ["added", "copied", "deleted", "modified", "renamed", "unmerged"]

/-- The `File` interface from src/file.ts: a changed file record. -/
structure File where
  filename : String
  status : ChangeStatus
deriving DecidableEq, Repr

/-- The argument given to `picomatch(...)` when a predicate was compiled:
either a single glob string or an array of glob strings. -/
inductive PatSpec where
  | one : String → PatSpec
  | many : List String → PatSpec
deriving DecidableEq, Repr

/-- The `FilterRuleItem` interface from src/lib/filter.ts.  The source stores the compiled
closure `picomatch(pattern, MatchOptions)`; the embedding stores the pattern
argument the closure captured (`pat`).  The `status` array is produced by an
unchecked cast from arbitrary lowercased strings, so it is a list of strings
here, not of `ChangeStatus`. -/
structure FilterRuleItem where
  status : Option (List String)
  pat : PatSpec
deriving DecidableEq, Repr

/-- The `PredicateQuantifier` enum from src/lib/filter.ts. -/
inductive PredicateQuantifier where
  | EVERY
  | SOME
deriving DecidableEq, Repr

/-- The `FilterConfig` type from src/lib/filter.ts. -/
structure FilterConfig where
  predicateQuantifier : PredicateQuantifier
deriving DecidableEq, Repr

/-- A decoded YAML document as js-yaml returns it: a JavaScript value. -/
inductive Yaml where
  | str : String → Yaml
  | num : Int → Yaml
  | bool : Bool → Yaml
  | null : Yaml
  | arr : List Yaml → Yaml
  | map : List (String × Yaml) → Yaml
deriving Repr

/-- JavaScript `typeof` on a decoded YAML value.  Arrays and `null` both
report `"object"`, exactly as in JavaScript. -/
def jsTypeof : Yaml → String
  | .str _ => "string"
  | .num _ => "number"
  | .bool _ => "boolean"
  | .null => "object"
  | .arr _ => "object"
  | .map _ => "object"

/-- JavaScript string interpolation `${value}` of a decoded YAML value
(used only to build error messages). -/
def jsToString : Yaml → String
  | .str s => s
  | .num n => toString n
  | .bool b => if b then "true" else "false"
  | .null => "null"
  | .arr _ => ""
  | .map _ => "[object Object]"

/-- JavaScript `Object.entries(doc)` for the two shapes that can reach it in
`Filter.load`: a plain object yields its entries, an array yields
index-keyed entries (`"0"`, `"1"`, ...).  `none` is the `TypeError`
thrown on `null`. -/
def entriesOf : Yaml → Option (List (String × Yaml))
  | .map es => Option.some es
  | .arr items => Option.some (items.enum.map (fun e => (toString e.1, e.2)))
  | _ => none

/-- The `throwInvalidFormatError` message format from src/lib/filter.ts. -/
def invalidFormat (msg : String) : String :=
  "Invalid filter YAML format: " ++ msg ++ "."

/-- The `TypeError` JavaScript throws from `Object.entries(null)`. -/
def nullEntriesError : String :=
  "TypeError: Cannot convert undefined or null to object"

/-- The `TypeError` picomatch throws on a pattern that is not a non-empty
string. -/
def picomatchArgError : String :=
  "TypeError: Expected pattern to be a non-empty string"

/-- Input validation of `picomatch(glob, MatchOptions)` for a string glob:
throws unless the glob is a non-empty string. -/
def compileOne (s : String) : Except String PatSpec :=
  if s = "" then .error picomatchArgError else .ok (.one s)

/-- Input validation of `picomatch(glob, MatchOptions)` for an array glob:
each element must be a non-empty string (picomatch recursively compiles
each element). -/
def compileList : List Yaml → Except String (List String)
  | [] => .ok []
  | .str s :: rest =>
    if s = "" then .error picomatchArgError
    else (compileList rest).map (fun l => s :: l)
  | _ :: _ => .error picomatchArgError

/-- Characters `String.prototype.trim` removes (JavaScript WhiteSpace and
LineTerminator; ASCII part plus NBSP, BOM and the Unicode line
separators). -/
def jsIsSpace (c : Char) : Bool :=
  c = ' ' || c = '\t' || c = '\n' || c = '\r' || c = '\u000b' ||
    c = '\u000c' || c = '\u00a0' || c = '\ufeff' || c = '\u2028' ||
    c = '\u2029'

/-- JavaScript `String.prototype.trim`: strip leading and trailing whitespace. -/
def jsTrim (s : String) : String :=
  String.mk (((s.data.dropWhile jsIsSpace).reverse.dropWhile jsIsSpace).reverse)

/-- JavaScript `String.prototype.toLowerCase` on one character (ASCII range). -/
def jsLowerChar (c : Char) : Char :=
  if 'A' ≤ c && c ≤ 'Z' then Char.ofNat (c.toNat + 32) else c

/-- JavaScript `String.prototype.toLowerCase` (ASCII range). -/
def jsToLower (s : String) : String :=
  String.mk (s.data.map jsLowerChar)

/-- Split a character list at every separator character, keeping empty
segments, as JavaScript `String.prototype.split` with a one-character
separator does (`acc` holds the current segment, reversed). -/
def splitChars (p : Char → Bool) : List Char → List Char → List String
  | [], acc => [String.mk acc.reverse]
  | c :: rest, acc =>
    if p c then String.mk acc.reverse :: splitChars p rest []
    else splitChars p rest (c :: acc)

/-- JavaScript `String.prototype.split` at characters satisfying `p`. -/
def jsSplit (p : Char → Bool) (s : String) : List String :=
  splitChars p s.data []

/-- The status-spec key parser inside `Filter.parseFilterItemYaml`:
`key.split('|').map(x => x.trim()).filter(x => x.length > 0).map(x => x.toLowerCase())`. -/
def parseStatusKey (k : String) : List String :=
  (((jsSplit (fun c => c = '|') k).map jsTrim).filter
      (fun x => x.length > 0)).map jsToLower

/-- One entry of the object branch of `Filter.parseFilterItemYaml`:
the value must be a string or an array (otherwise
`throwInvalidFormatError`), and is handed to picomatch together with the
parsed status key. -/
def parseEntry (k : String) (v : Yaml) : Except String FilterRuleItem :=
  match v with
  | .str p =>
    (compileOne p).map (fun pat => ⟨Option.some (parseStatusKey k), pat⟩)
  | .arr ps =>
    (compileList ps).map
      (fun l => ⟨Option.some (parseStatusKey k), .many l⟩)
  | other =>
    .error (invalidFormat
      ("Expected [key:string]= pattern:string | string[], but [" ++ k ++
        ":string]= " ++ jsToString other ++ ":" ++ jsTypeof other ++ " found"))

/-- The loop `Object.entries(item).map(...)` in the object branch: entries are
processed left to right and the first thrown error aborts the whole map. -/
def parseEntryList : List (String × Yaml) → Except String (List FilterRuleItem)
  | [] => .ok []
  | (k, v) :: rest => do
    let item ← parseEntry k v
    let items ← parseEntryList rest
    .ok (item :: items)

mutual

/-- Method `Filter.parseFilterItemYaml` from src/lib/filter.ts.
Arrays recurse element-wise and flatten (`flat(item.map(...))`); strings
compile to a single status-free predicate; objects compile entry-wise;
`null` has JavaScript type `"object"` and makes `Object.entries` throw a
`TypeError`; numbers and booleans fall through to
`throwInvalidFormatError`. -/
def parseFilterItemYaml : Yaml → Except String (List FilterRuleItem)
  | .arr items => (parseItemList items).map List.flatten
  | .str s => (compileOne s).map (fun pat => [⟨none, pat⟩])
  | .map entries => parseEntryList entries
  | .null => .error nullEntriesError
  | .num _ => .error (invalidFormat "Unexpected element type 'number'")
  | .bool _ => .error (invalidFormat "Unexpected element type 'boolean'")
termination_by structural y => y

/-- The recursion `item.map(i => this.parseFilterItemYaml(i))` over a decoded YAML array:
left-to-right, the first thrown error aborts. -/
def parseItemList : List Yaml → Except String (List (List FilterRuleItem))
  | [] => .ok []
  | y :: rest => do
    let h ← parseFilterItemYaml y
    let t ← parseItemList rest
    .ok (h :: t)
termination_by structural l => l

end

/-- The mutable `Filter.rules` object: filter name → compiled predicate
list, in property insertion order. -/
abbrev Rules := List (String × List FilterRuleItem)

/-- JavaScript object property assignment `this.rules[key] = value`:
replace the value in place if the key already exists, append otherwise. -/
def setKey : Rules → String → List FilterRuleItem → Rules
  | [], k, v => [(k, v)]
  | e :: rest, k, v =>
    if e.1 == k then (k, v) :: rest else e :: setKey rest k v

/-- JavaScript object property read `rules[name]`. -/
def lookupRules (rules : Rules) (name : String) : Option (List FilterRuleItem) :=
  (rules.find? (fun e => e.1 == name)).map Prod.snd

/-- The `for (const [key, item] of Object.entries(doc))` loop in
`Filter.load`: entries are compiled and assigned one at a time, and the
first thrown error aborts the loop with the rule state reached so far. -/
def loadEntries : List (String × Yaml) → Rules → Rules × Option String
  | [], rules => (rules, none)
  | (k, item) :: rest, rules =>
    match parseFilterItemYaml item with
    | .error e => (rules, Option.some e)
    | .ok ps => loadEntries rest (setKey rules k ps)

/-- Method `Filter.load` from src/lib/filter.ts.  The argument `yaml` is `none`
when the input string is falsy (the `if (!yaml) return` early exit), and
`some doc` with the js-yaml-decoded document otherwise.  The returned pair
is the rule state after the call together with the thrown error, if any. -/
def load (rules : Rules) (yaml : Option Yaml) : Rules × Option String :=
  match yaml with
  | none => (rules, none)
  | Option.some doc =>
    if jsTypeof doc ≠ "object" then
      (rules, Option.some (invalidFormat "Root element is not an object"))
    else
      match entriesOf doc with
      | none => (rules, Option.some nullEntriesError)
      | Option.some es => loadEntries es rules

/-- The status half of `aPredicate` in `Filter.isMatch`:
`rule.status === undefined || rule.status.includes(file.status)`. -/
def statusOk (rule : FilterRuleItem) (file : File) : Bool :=
  match rule.status with
  | none => true
  | Option.some l => l.contains file.status.toStr

/-- The local `aPredicate` in `Filter.isMatch`: the status check conjoined with the
compiled path matcher applied to the filename. -/
def aPredicate (pm : PatSpec → String → Bool) (file : File)
    (rule : FilterRuleItem) : Bool :=
  statusOk rule file && pm rule.pat file.filename

/-- Method `Filter.isMatch` from src/lib/filter.ts:
`patterns.every(aPredicate)` when the optional config requests EVERY,
`patterns.some(aPredicate)` otherwise (including when no config is given). -/
def isMatch (cfg : Option FilterConfig) (pm : PatSpec → String → Bool)
    (file : File) (patterns : List FilterRuleItem) : Bool :=
  if cfg.map FilterConfig.predicateQuantifier
      = Option.some PredicateQuantifier.EVERY then
    patterns.all (aPredicate pm file)
  else
    patterns.any (aPredicate pm file)

/-- Method `Filter.match` from src/lib/filter.ts: for each rule table entry, in
insertion order, filter the input file list by `isMatch`. -/
def matchFiles (cfg : Option FilterConfig) (pm : PatSpec → String → Bool)
    (rules : Rules) (files : List File) : List (String × List File) :=
  rules.map (fun e => (e.1, files.filter (fun f => isMatch cfg pm f e.2)))

/-- The character class of the safe-string regex in csvEscape:
safe set (letters, digits, period, underscore, plus, colon, at-sign, percent, slash, hyphen). -/
def isSafeChar (c : Char) : Bool :=
  ('a' ≤ c && c ≤ 'z') || ('A' ≤ c && c ≤ 'Z') || ('0' ≤ c && c ≤ '9') ||
    c = '.' || c = '_' || c = '+' || c = ':' || c = '@' || c = '%' ||
    c = '/' || c = '-'

/-- JavaScript regular-expression line terminators, at which `^`/`$` match
in multiline mode. -/
def isLineTerm (c : Char) : Bool :=
  c = '\n' || c = '\r' || c = '\u2028' || c = '\u2029'

/-- The safe-line regex test of csvEscape with the multiline flag: the
test succeeds iff some line of the value is non-empty and consists
entirely of safe characters. -/
def hasSafeLine (value : String) : Bool :=
  (jsSplit isLineTerm value).any
    (fun l => !l.data.isEmpty && l.data.all isSafeChar)

/-- Function `csvEscape` from src/lib/list-format/csv-escape.ts. -/
def csvEscape (value : String) : String :=
  if value = "" then value
  else if hasSafeLine value then value
  else "\"" ++ value.replace "\"" "\"\"" ++ "\""

/-- A concrete matcher function standing in for compiled picomatch in
witnesses and counterexamples: exact string comparison against the
pattern(s).  (Every theorem is proved for an arbitrary matcher; this one
is only used to instantiate them at concrete inputs.) -/
def pmExact : PatSpec → String → Bool
  | .one p, s => p == s
  | .many ps, s => ps.contains s

/-- The spec's reading of the status half of a predicate, written from the
spec's words for comparison with the source's `statusOk`: an *empty*
status constraint also accepts any status. -/
def claimStatusOk (rule : FilterRuleItem) (file : File) : Bool :=
  match rule.status with
  | none => true
  | Option.some l => l.isEmpty || l.contains file.status.toStr

/-- The spec's reading of a full predicate test (claim C1), for comparison
with the source's `aPredicate`. -/
def claimC1Sat (pm : PatSpec → String → Bool) (file : File)
    (rule : FilterRuleItem) : Bool :=
  claimStatusOk rule file && pm rule.pat file.filename

/-- Fold used to describe the rule state `Filter.load` has built after
processing a prefix of the document's entries. -/
def applyEntries (es : List (String × Yaml)) (rules : Rules) : Rules :=
  es.foldl
    (fun r e =>
      match parseFilterItemYaml e.2 with
      | .ok ps => setKey r e.1 ps
      | .error _ => r)
    rules

end CondPaths

section Theorems

open CondPaths

/-- Containment via `List.contains` agrees with membership for strings. -/
theorem contains_iff_mem (l : List String) (a : String) :
    l.contains a = true ↔ a ∈ l := by
  simp

/-- Every `ChangeStatus` string value is one of the six closed names. -/
theorem changeStatus_toStr_mem (c : ChangeStatus) :
    c.toStr ∈ statusNames := by
  cases c <;> simp [ChangeStatus.toStr, statusNames]


/-- C1 (as stated) is false on the code: the spec-side predicate test, which
accepts any status when the status constraint is present but empty, disagrees
with the source's `aPredicate` on a predicate whose status constraint is the
empty list (produced e.g. from the status key `""` or `"|"`). -/
theorem c1_counterexample :
    claimC1Sat pmExact ⟨"a.ts", .added⟩ ⟨Option.some [], .one "a.ts"⟩ = true ∧
    aPredicate pmExact ⟨"a.ts", .added⟩ ⟨Option.some [], .one "a.ts"⟩ = false := by
  decide

/-- C1 (amended): a file satisfies a compiled predicate iff (the status
constraint is undefined, or the file's status is a member of the constraint
set) and the compiled path test accepts the file's path; a predicate whose
status constraint is present but empty accepts no status at all — it is
satisfied by no file. -/
theorem c1_predicate_semantics (pm : PatSpec → String → Bool) (file : File)
    (rule : FilterRuleItem) :
    (aPredicate pm file rule = true ↔
      ((rule.status = none ∨
          ∃ l, rule.status = Option.some l ∧ file.status.toStr ∈ l) ∧
        pm rule.pat file.filename = true)) ∧
    (rule.status = Option.some [] → aPredicate pm file rule = false) := by
  obtain ⟨st, pat⟩ := rule
  constructor
  · cases st with
    | none => simp [aPredicate, statusOk]
    | some l =>
      simp [aPredicate, statusOk, Bool.and_eq_true, contains_iff_mem]
  · intro h
    simp only [FilterRuleItem.status] at h
    subst h
    simp [aPredicate, statusOk]

/-- Witness for C1 (amended), at a concrete empty-constraint predicate. -/
theorem c1_predicate_semantics_witness :
    aPredicate pmExact ⟨"a.ts", .added⟩ ⟨Option.some [], .one "a.ts"⟩ = false :=
  (c1_predicate_semantics pmExact ⟨"a.ts", .added⟩
    ⟨Option.some [], .one "a.ts"⟩).2 rfl

/-- C2: `match` returns one entry per rule-table entry, in declaration
order; the entry declared for a name carries exactly the filter of the
input file list (original order preserved, possibly empty) by that rule's
per-file test; and conversely every result entry arises that way from a
declared rule. -/
theorem c2_match_result (cfg : Option FilterConfig)
    (pm : PatSpec → String → Bool) (rules : Rules) (files : List File) :
    ((matchFiles cfg pm rules files).map Prod.fst = rules.map Prod.fst) ∧
    (∀ k ps, (k, ps) ∈ rules →
      (k, files.filter (fun f => isMatch cfg pm f ps)) ∈
        matchFiles cfg pm rules files) ∧
    (∀ e ∈ matchFiles cfg pm rules files,
      ∃ ps, (e.1, ps) ∈ rules ∧ e.2.Sublist files ∧
        ∀ f, f ∈ e.2 ↔ f ∈ files ∧ isMatch cfg pm f ps = true) := by
  refine ⟨?_, ?_, ?_⟩
  · simp [matchFiles, List.map_map]
  · intro k ps h
    exact List.mem_map_of_mem _ h
  · intro e he
    obtain ⟨a, ha, rfl⟩ := List.mem_map.mp he
    exact ⟨a.2, ha, List.filter_sublist _,
      fun f => by simp [List.mem_filter]⟩

/-- Witness for C2: a two-filter table against a file matching neither
still yields an (empty) entry for the filter. -/
theorem c2_match_result_witness :
    ("src", ([] : List File)) ∈
      matchFiles none pmExact
        [("src", [⟨none, .one "pat1"⟩]), ("docs", [⟨none, .one "pat2"⟩])]
        [⟨"main.c", .modified⟩] := by
  have h := (c2_match_result none pmExact
      [("src", [⟨none, .one "pat1"⟩]), ("docs", [⟨none, .one "pat2"⟩])]
      [⟨"main.c", .modified⟩]).2.1 "src" [⟨none, .one "pat1"⟩] (by simp)
  have e : ([⟨"main.c", .modified⟩] : List File).filter
      (fun f => isMatch none pmExact f [⟨none, .one "pat1"⟩]) = [] := by decide
  rw [e] at h
  exact h

/-- C3: on a non-empty predicate list, SOME matches iff at least one
predicate is satisfied by the file, and EVERY matches iff all predicates
are satisfied by the file. -/
theorem c3_quantifier_semantics (pm : PatSpec → String → Bool) (file : File)
    (ps : List FilterRuleItem) (h : ps ≠ []) :
    (isMatch (Option.some ⟨.SOME⟩) pm file ps = true ↔
      ∃ r ∈ ps, aPredicate pm file r = true) ∧
    (isMatch (Option.some ⟨.EVERY⟩) pm file ps = true ↔
      ∀ r ∈ ps, aPredicate pm file r = true) := by
  constructor
  · simp [isMatch, List.any_eq_true]
  · simp [isMatch, List.all_eq_true]

/-- Witness for C3, at a concrete one-predicate rule and matching file. -/
theorem c3_quantifier_semantics_witness :
    isMatch (Option.some ⟨.SOME⟩) pmExact ⟨"a", .added⟩
      [⟨none, .one "a"⟩] = true :=
  ((c3_quantifier_semantics pmExact ⟨"a", .added⟩ [⟨none, .one "a"⟩]
      (by decide)).1).mpr ⟨⟨none, .one "a"⟩, by decide, by decide⟩

/-- C4 (as stated) is false on the code: under the EVERY quantifier a rule
whose compiled predicate list is empty matches every file
(`[].every(...)` is `true`), not no file. -/
theorem c4_counterexample :
    isMatch (Option.some ⟨.EVERY⟩) pmExact ⟨"f.ts", .added⟩ [] = true := by
  decide

/-- C4 (amended): a rule with an empty compiled predicate list matches no
file under the SOME quantifier (and under the default, config-less
behaviour, which is SOME), but matches every file under the EVERY
quantifier, by vacuous truth of `Array.prototype.every`. -/
theorem c4_empty_rule (pm : PatSpec → String → Bool) (file : File) :
    isMatch none pm file [] = false ∧
    isMatch (Option.some ⟨.SOME⟩) pm file [] = false ∧
    isMatch (Option.some ⟨.EVERY⟩) pm file [] = true := by
  refine ⟨?_, ?_, ?_⟩ <;> simp [isMatch]

/-- C5 (as stated) is false on the code: an array root has JavaScript type
`"object"`, so it passes the root check and `load` compiles it into a rule
table keyed by decimal indices instead of raising the compile error. -/
theorem c5_counterexample :
    load [] (Option.some (.arr [.str "src/x"])) =
      ([("0", [⟨none, .one "src/x"⟩])], none) := by
  decide

/-- C5 (amended): a scalar root (string, number or boolean) raises the
fatal `Invalid filter YAML format` error and leaves the rule state
untouched; a `null` root passes the `typeof` check and instead raises a
`TypeError` from `Object.entries`; an array root passes the check and is
compiled as a mapping from decimal string indices to its elements. -/
theorem c5_root_shape (rules : Rules) (s : String) (n : Int) (b : Bool)
    (items : List Yaml) :
    (load rules (Option.some (.str s)) =
      (rules, Option.some (invalidFormat "Root element is not an object"))) ∧
    (load rules (Option.some (.num n)) =
      (rules, Option.some (invalidFormat "Root element is not an object"))) ∧
    (load rules (Option.some (.bool b)) =
      (rules, Option.some (invalidFormat "Root element is not an object"))) ∧
    (load rules (Option.some .null) =
      (rules, Option.some nullEntriesError)) ∧
    (load rules (Option.some (.arr items)) =
      loadEntries (items.enum.map (fun e => (toString e.1, e.2))) rules) := by
  refine ⟨?_, ?_, ?_, ?_, ?_⟩ <;> simp [load, jsTypeof, entriesOf]

/-- C6 (as stated) is false on the code: when the second rule of a document
is malformed, the first rule has already been assigned into the rule state
before the error is thrown, so the state after the failed load does contain
entries from the offending document. -/
theorem c6_counterexample :
    ((load [] (Option.some (.map [("a", .str "p"), ("b", .num 42)]))).2.isSome
        = true) ∧
    (load [] (Option.some (.map [("a", .str "p"), ("b", .num 42)]))).1 =
      [("a", [⟨none, .one "p"⟩])] := by
  decide

/-- C6 (amended): a shape violation raises an error immediately at the
first offending rule, aborting compilation — the offending entry and all
later entries are never assigned — but the entries preceding the offending
one have already been assigned into the rule state, which therefore can
hold a partial result of the failed document. -/
theorem c6_first_error_aborts (pre : List (String × Yaml)) (k : String)
    (item : Yaml) (rest : List (String × Yaml)) (rules : Rules) (msg : String)
    (hpre : ∀ e ∈ pre, (parseFilterItemYaml e.2).isOk = true)
    (herr : parseFilterItemYaml item = .error msg) :
    loadEntries (pre ++ (k, item) :: rest) rules =
      (applyEntries pre rules, Option.some msg) := by
  induction pre generalizing rules with
  | nil => simp [loadEntries, herr, applyEntries]
  | cons e pre ih =>
    obtain ⟨ek, ev⟩ := e
    have h1 : (parseFilterItemYaml ev).isOk = true :=
      hpre _ (List.mem_cons_self _ _)
    match hp : parseFilterItemYaml ev with
    | .error e' => rw [hp] at h1; simp [Except.isOk, Except.toBool] at h1
    | .ok ps =>
      simp only [List.cons_append, loadEntries, hp, List.append_eq]
      rw [ih _ (fun x hx => hpre x (List.mem_cons_of_mem _ hx))]
      simp [applyEntries, hp]

/-- Witness for C6 (amended): a document whose second rule is the number
42 fails with the first rule already assigned. -/
theorem c6_first_error_aborts_witness :
    loadEntries [("a", Yaml.str "p"), ("b", Yaml.num 42)] [] =
      (applyEntries [("a", Yaml.str "p")] [],
        Option.some (invalidFormat "Unexpected element type 'number'")) :=
  c6_first_error_aborts [("a", Yaml.str "p")] "b" (Yaml.num 42) [] []
    (invalidFormat "Unexpected element type 'number'") (by decide) rfl

/-- C7: a rule item that is a list compiles each element recursively and
concatenates the results in declared order, so nested lists flatten to
the same predicate sequence as the equivalent flat form. -/
theorem c7_list_flatten (items : List Yaml) (ls : List (List FilterRuleItem))
    (h : List.Forall₂ (fun y l => parseFilterItemYaml y = .ok l) items ls) :
    parseFilterItemYaml (.arr items) = .ok ls.flatten := by
  have hl : parseItemList items = .ok ls := by
    induction h with
    | nil => rfl
    | cons hy _ ih => simp only [parseItemList, hy, ih]; rfl
  simp only [parseFilterItemYaml, hl]
  rfl

/-- Witness for C7, at the spec's nested example, which compiles to
exactly the two predicates of the flat form in declared order. -/
theorem c7_list_flatten_witness :
    parseFilterItemYaml
        (.arr [.arr [.str "a/**"], .arr [.map [("added", .str "b/**")]]]) =
      .ok [⟨none, .one "a/**"⟩, ⟨Option.some ["added"], .one "b/**"⟩] :=
  c7_list_flatten
    [.arr [.str "a/**"], .arr [.map [("added", .str "b/**")]]]
    [[⟨none, .one "a/**"⟩], [⟨Option.some ["added"], .one "b/**"⟩]]
    (List.Forall₂.cons (by rfl) (List.Forall₂.cons (by rfl) List.Forall₂.nil))

/-- C8: an unrecognized status token is not rejected at compile time (the
mapping entry still compiles, carrying the token in its status list), but
no real file record can ever satisfy it: every file's status string is one
of the six closed enum values, so a predicate whose parsed status tokens
are all unrecognized has a status portion that no file satisfies. -/
theorem c8_unknown_status_tokens (k p : String) (hp : p ≠ "") :
    (parseFilterItemYaml (.map [(k, .str p)]) =
      .ok [⟨Option.some (parseStatusKey k), .one p⟩]) ∧
    (∀ t ∈ parseStatusKey k, t ∉ statusNames →
      ∀ c : ChangeStatus, c.toStr ≠ t) ∧
    ((∀ t ∈ parseStatusKey k, t ∉ statusNames) →
      ∀ f : File, statusOk ⟨Option.some (parseStatusKey k), .one p⟩ f
        = false) := by
  refine ⟨?_, ?_, ?_⟩
  · simp only [parseFilterItemYaml, parseEntryList, parseEntry, compileOne,
      if_neg hp]
    rfl
  · intro t _ht hnot c hc
    exact hnot (hc ▸ changeStatus_toStr_mem c)
  · intro hall f
    cases hc : (parseStatusKey k).contains f.status.toStr with
    | false => simpa [statusOk] using hc
    | true =>
      exact absurd (changeStatus_toStr_mem f.status)
        (hall _ ((contains_iff_mem _ _).mp hc))

/-- Witness for C8: the token `banana` compiles but matches no status. -/
theorem c8_unknown_status_tokens_witness :
    statusOk ⟨Option.some (parseStatusKey "banana"), .one "src/x"⟩
      ⟨"x.ts", .added⟩ = false :=
  (c8_unknown_status_tokens "banana" "src/x" (by decide)).2.2 (by decide)
    ⟨"x.ts", .added⟩

/-- C9: when some line of the input consists entirely of safe characters,
csvEscape returns the input unchanged — even if the input contains a
newline and its other lines hold commas or quotes — and the quoted form
with doubled internal quotes is produced only when the input is non-empty
and no line is entirely safe. -/
theorem c9_csv_escape (s : String) :
    (s.data.contains '\n' = true → hasSafeLine s = true → csvEscape s = s) ∧
    (s ≠ "" → hasSafeLine s = false →
      csvEscape s = "\"" ++ s.replace "\"" "\"\"" ++ "\"") := by
  constructor
  · intro hn hs
    have hne : s ≠ "" := by
      intro e
      subst e
      simp at hn
    simp [csvEscape, hne, hs]
  · intro hne hs
    simp [csvEscape, hne, hs]

/-- Witness for C9: a two-line string whose first line is all-safe and
whose second line holds a quote and a comma passes through unquoted. -/
theorem c9_csv_escape_witness :
    csvEscape "a/b\n\",x" = "a/b\n\",x" :=
  (c9_csv_escape "a/b\n\",x").1 (by decide) (by decide)

/-- Reading back the key just assigned by `setKey` yields the new value. -/
theorem lookup_setKey_self (rules : Rules) (k : String)
    (v : List FilterRuleItem) :
    lookupRules (setKey rules k v) k = Option.some v := by
  induction rules with
  | nil => simp [setKey, lookupRules, List.find?]
  | cons e rest ih =>
    by_cases h : e.1 == k
    · simp [setKey, h, lookupRules, List.find?]
    · simp only [setKey, h, if_false, Bool.false_eq_true, if_neg]
      simpa [lookupRules, List.find?, h] using ih

/-- Updating with `setKey` leaves every other key's binding unchanged. -/
theorem lookup_setKey_ne (rules : Rules) (k : String)
    (v : List FilterRuleItem) (name : String) (h : name ≠ k) :
    lookupRules (setKey rules k v) name = lookupRules rules name := by
  have hkn : (k == name) = false := beq_eq_false_iff_ne.mpr (Ne.symm h)
  induction rules with
  | nil => simp [setKey, lookupRules, List.find?, hkn]
  | cons e rest ih =>
    by_cases he : e.1 == k
    · have he1 : e.1 = k := eq_of_beq he
      have hen : (e.1 == name) = false := by
        rw [he1]
        exact hkn
      simp [setKey, he, lookupRules, List.find?, hkn, hen]
    · by_cases hen : e.1 == name
      · simp [setKey, he, lookupRules, List.find?, hen]
      · simpa [setKey, he, lookupRules, List.find?, hen] using ih

/-- A successful pass of the load loop only touches the names that appear
in the document: every other name keeps its previous binding. -/
theorem loadEntries_frame (es : List (String × Yaml)) :
    ∀ rules r' : Rules, loadEntries es rules = (r', none) →
      ∀ name, name ∉ es.map Prod.fst →
        lookupRules r' name = lookupRules rules name := by
  induction es with
  | nil =>
    intro rules r' h name _
    cases h
    rfl
  | cons e rest ih =>
    intro rules r' h name hname
    obtain ⟨k, item⟩ := e
    simp only [loadEntries] at h
    match hp : parseFilterItemYaml item with
    | .error msg => rw [hp] at h; simp at h
    | .ok ps =>
      rw [hp] at h
      have h1 : ¬(name = k ∨ name ∈ rest.map Prod.fst) := by
        simpa using hname
      rw [ih _ _ h name (fun hx => h1 (Or.inr hx))]
      exact lookup_setKey_ne _ _ _ _ (fun hx => h1 (Or.inl hx))

/-- After a successful pass of the load loop every name that appears in
the document is bound in the resulting rule state. -/
theorem loadEntries_assigned (es : List (String × Yaml)) :
    ∀ rules r' : Rules, loadEntries es rules = (r', none) →
      ∀ e ∈ es, ∃ v, lookupRules r' e.1 = Option.some v := by
  induction es with
  | nil => simp
  | cons e rest ih =>
    intro rules r' h x hx
    obtain ⟨k, item⟩ := e
    simp only [loadEntries] at h
    match hp : parseFilterItemYaml item with
    | .error msg => rw [hp] at h; simp at h
    | .ok ps =>
      rw [hp] at h
      rcases List.mem_cons.mp hx with rfl | hx'
      · by_cases hk : k ∈ rest.map Prod.fst
        · obtain ⟨e', he', hk'⟩ := List.mem_map.mp hk
          obtain ⟨v, hv⟩ := ih _ _ h e' he'
          exact ⟨v, hk' ▸ hv⟩
        · refine ⟨ps, ?_⟩
          rw [loadEntries_frame rest _ _ h k hk]
          exact lookup_setKey_self _ _ _
      · exact ih _ _ h x hx'

/-- C10: loading an empty (falsy) configuration string leaves the rule
state untouched, and a subsequent successful load of a second document
only reassigns the names that appear in that document — every previously
loaded rule whose name does not appear keeps its binding, so the rule
table accumulates across loads instead of being reset. -/
theorem c10_load_accumulates :
    (∀ rules : Rules, load rules none = (rules, none)) ∧
    (∀ (es : List (String × Yaml)) (rules r' : Rules),
      loadEntries es rules = (r', none) →
      ∀ name, name ∉ es.map Prod.fst →
        lookupRules r' name = lookupRules rules name) ∧
    (∀ (es : List (String × Yaml)) (rules r' : Rules),
      loadEntries es rules = (r', none) →
      ∀ e ∈ es, ∃ v, lookupRules r' e.1 = Option.some v) :=
  ⟨fun _ => rfl, loadEntries_frame, loadEntries_assigned⟩

/-- Witness for C10: after loading a second document declaring only `new`
over a state holding `old`, the binding of `old` is preserved. -/
theorem c10_load_accumulates_witness :
    lookupRules (loadEntries [("new", Yaml.str "n")]
        [("old", [⟨none, PatSpec.one "o"⟩])]).1 "old" =
      Option.some [⟨none, PatSpec.one "o"⟩] := by
  have h := c10_load_accumulates.2.1 [("new", Yaml.str "n")]
      [("old", [⟨none, PatSpec.one "o"⟩])]
      [("old", [⟨none, PatSpec.one "o"⟩]), ("new", [⟨none, PatSpec.one "n"⟩])]
      (by decide) "old" (by decide)
  have e : (loadEntries [("new", Yaml.str "n")]
      [("old", [⟨none, PatSpec.one "o"⟩])]).1
      = [("old", [⟨none, PatSpec.one "o"⟩]),
         ("new", [⟨none, PatSpec.one "n"⟩])] := by decide
  rw [e, h]
  decide

end Theorems
